import Mathlib

/-!
Verification development for the opencode-windsurf-auth bridge.

The development shallowly embeds the TypeScript sources:
  - plugin/auth.ts (credential discovery: process table parsing, port
    selection, API key lookup),
  - server.ts (the HTTP status gating of the chat-completions handler),
  - plugin.ts (tool-plan parsing, argument normalization, SSE emission,
    outbound message filtering),
and, for code of the repository that is not shipped under src
(plugin/models.ts and plugin/grpc-client.ts), models taken from the
written specification, each marked in its doc comment.

JavaScript runtime primitives that the sources call are made explicit:
JSON.parse is an oracle (a function String to Option Json together with
the size-decrease fact true of real JSON parsing), regular-expression
scans are implemented concretely over character lists, and the process
table, socket tables and file system are environment records.
-/

namespace WindsurfAuth

/-! JavaScript-like JSON values. The undefined constructor stands for the
JavaScript value undefined, which the sources treat via loose equality
(raw == null) and truthiness. Numbers are modeled as integers; no claim
under study depends on non-integral numbers. -/

inductive Json where
  | null : Json
  | undefined : Json
  | bool : Bool → Json
  | num : Int → Json
  | str : String → Json
  | arr : List Json → Json
  | obj : List (String × Json) → Json

mutual
/-- Size measure on JSON values, weighting strings by their length. Used
as the termination measure for the recursive argument normalizer: real
JSON.parse only ever produces values smaller than the parsed text under
this measure. -/
def mu : Json → Nat
  | .null => 1
  | .undefined => 1
  | .bool _ => 1
  | .num _ => 1
  | .str s => 8 * s.length + 8
  | .arr xs => 1 + muList xs
  | .obj kvs => 1 + muObj kvs

def muList : List Json → Nat
  | [] => 0
  | x :: xs => mu x + muList xs

def muObj : List (String × Json) → Nat
  | [] => 0
  | kv :: kvs => mu kv.2 + muObj kvs
end

/-- Termination fact: a member of a JSON array weighs no more than the
whole element list. Stated as a def because it is consumed by the
termination proof of a later definition. -/
def mu_le_muList : ∀ {x : Json} {xs : List Json}, x ∈ xs → mu x ≤ muList xs := by
  intro x xs h
  induction xs with
  | nil => cases h
  | cons a as ih =>
    rcases List.mem_cons.mp h with h1 | h2
    · subst h1; simp [muList]
    · have := ih h2; simp [muList]; omega

/-- Termination fact: the value of a member of a JSON object weighs no
more than the whole entry list. -/
def mu_le_muObj : ∀ {kv : String × Json} {kvs : List (String × Json)}, kv ∈ kvs → mu kv.2 ≤ muObj kvs := by
  intro kv kvs h
  induction kvs with
  | nil => cases h
  | cons a as ih =>
    rcases List.mem_cons.mp h with h1 | h2
    · subst h1; simp [muObj]
    · have := ih h2; simp [muObj]; omega

/-- The JSON.parse primitive, as an oracle: a deterministic partial
function from strings to values (None models a thrown SyntaxError),
together with the fact, true of real JSON parsing, that a parsed value
is smaller than the parsed text under mu (every node and every string
character of the result is backed by distinct characters of the text). -/
structure ParseOracle where
  parse : String → Option Json
  parse_mu_lt : ∀ s v, parse s = some v → mu v < 8 * s.length + 8

/-- Whitespace recognized by the JavaScript String.prototype.trim. -/
def isJsWhitespace (c : Char) : Bool :=
  c = ' ' || c = '\t' || c = '\n' || c = '\r' || c = '\x0b' || c = '\x0c'

/-- JavaScript String.prototype.trim: strip whitespace from both ends. -/
def jsTrim (s : String) : String :=
  ⟨((s.data.dropWhile isJsWhitespace).reverse.dropWhile isJsWhitespace).reverse⟩

/-- Trimming never lengthens a string (needed for the termination of the
argument normalizer). Stated as a def because it is consumed by the
termination proof of a later definition. -/
def jsTrim_length_le (s : String) : (jsTrim s).length ≤ s.length := by
  show ((s.data.dropWhile isJsWhitespace).reverse.dropWhile isJsWhitespace).reverse.length ≤ s.data.length
  rw [List.length_reverse]
  calc ((s.data.dropWhile isJsWhitespace).reverse.dropWhile isJsWhitespace).length
      ≤ (s.data.dropWhile isJsWhitespace).reverse.length :=
        ((List.dropWhile_suffix isJsWhitespace).sublist).length_le
    _ = (s.data.dropWhile isJsWhitespace).length := List.length_reverse _
    _ ≤ s.data.length := ((List.dropWhile_suffix isJsWhitespace).sublist).length_le

/-- Does the first character of the string equal c (JS startsWith with a
one-character needle). -/
def startsWithChar (s : String) (c : Char) : Bool :=
  match s.data with
  | [] => false
  | a :: _ => a = c

/-- Does the last character of the string equal c (JS endsWith with a
one-character needle). -/
def endsWithChar (s : String) (c : Char) : Bool :=
  match s.data.getLast? with
  | some a => a = c
  | none => false

/-- The looksJson test of normalizeToolArguments in plugin.ts: the
(already trimmed) string starts and ends with matching braces or
brackets. -/
def looksLikeJson (t : String) : Bool :=
  (startsWithChar t '{' && endsWithChar t '}') ||
  (startsWithChar t '[' && endsWithChar t ']')

/-- Embedding of normalizeToolArguments (plugin.ts lines 346 to 377):
null and undefined become the empty object; a string whose trimmed form
looks like JSON is parsed and the parse result normalized recursively
(the raw string is returned when parsing throws); arrays and objects are
normalized element-wise; every other value is returned unchanged. -/
def normalizeToolArguments (po : ParseOracle) : Json → Json
  | .null => .obj []
  | .undefined => .obj []
  | .bool b => .bool b
  | .num n => .num n
  | .str s =>
      let trimmed := jsTrim s
      if looksLikeJson trimmed then
        match h : po.parse trimmed with
        | some v => normalizeToolArguments po v
        | none => .str s
      else .str s
  | .arr xs => .arr (xs.attach.map (fun x => normalizeToolArguments po x.1))
  | .obj kvs => .obj (kvs.attach.map (fun kv => (kv.1.1, normalizeToolArguments po kv.1.2)))
termination_by x => mu x
decreasing_by
  · have h1 := po.parse_mu_lt _ _ h
    have h2 := jsTrim_length_le s
    have h3 : trimmed = jsTrim s := rfl
    rw [h3] at h1
    simp only [mu]
    omega
  · have h1 := mu_le_muList x.2
    simp only [mu]
    omega
  · have h1 := mu_le_muObj kv.2
    simp only [mu]
    omega

/-- JavaScript truthiness of a JSON value. -/
def jsTruthy : Json → Bool
  | .null => false
  | .undefined => false
  | .bool b => b
  | .num n => n != 0
  | .str s => s != ""
  | .arr _ => true
  | .obj _ => true

/-- JavaScript property access v[k]: on an object, the value stored
under the key (the last occurrence wins, matching how JSON.parse
resolves duplicate keys); on every other value, undefined. -/
def jGet (j : Json) (k : String) : Json :=
  match j with
  | .obj kvs =>
      match (kvs.filter (fun kv => kv.1 == k)).getLast? with
      | some kv => kv.2
      | none => .undefined
  | _ => .undefined

/-- Is the value a JavaScript string (typeof v === string). -/
def isStr : Json → Bool
  | .str _ => true
  | _ => false

/-- Is the value an array (Array.isArray). -/
def isArr : Json → Bool
  | .arr _ => true
  | _ => false

/-- Does the value equal the given string under strict equality. -/
def jIsStrEq (j : Json) (s : String) : Bool :=
  match j with
  | .str a => a == s
  | _ => false

/-- The element list of an array value (empty for non-arrays; only ever
applied under an isArr guard). -/
def jArrElems : Json → List Json
  | .arr xs => xs
  | _ => []

/-- One planned tool call as built by parseToolCallPlan. The name is
kept as a raw JSON value so that the string-ness guaranteed by the
filter in the source is a provable property rather than a typing
artifact. -/
structure PlannedToolCall where
  name : Json
  arguments : Json

/-- The ToolCallPlan union of plugin.ts: either a final answer or a list
of tool calls. The final content is likewise kept as a raw JSON value. -/
inductive ToolCallPlan where
  | final (content : Json)
  | toolCall (tool_calls : List PlannedToolCall)

/-- JavaScript String.prototype.indexOf for a single character: the
first index, or minus one. -/
def jsIndexOfChar (s : String) (c : Char) : Int :=
  match s.data.findIdx? (fun a => a == c) with
  | some i => (i : Int)
  | none => -1

/-- JavaScript String.prototype.lastIndexOf for a single character: the
last index, or minus one. -/
def jsLastIndexOfChar (s : String) (c : Char) : Int :=
  match s.data.reverse.findIdx? (fun a => a == c) with
  | some i => (s.data.length : Int) - 1 - (i : Int)
  | none => -1

/-- JavaScript String.prototype.slice with non-negative indices. -/
def jsSlice (s : String) (a b : Nat) : String :=
  ⟨(s.data.drop a).take (b - a)⟩

/-- Embedding of parseToolCallPlan (plugin.ts lines 379 to 424). The
JSON.parse primitive is the oracle po; the regular-expression matchAll
scan for tagged tool calls is the function tagMatches, returning for
each match the captured name (one or more word, dot or dash characters)
and the captured raw argument text. -/
def parseToolCallPlan (po : ParseOracle) (tagMatches : String → List (String × String))
    (output : String) : Option ToolCallPlan :=
  let start := jsIndexOfChar output '{'
  let stop := jsLastIndexOfChar output '}'
  if start = -1 ∨ stop = -1 ∨ stop ≤ start then none
  else
    let jsonText := jsSlice output start.toNat (stop.toNat + 1)
    match po.parse jsonText with
    | some parsed =>
        if jsTruthy parsed && jIsStrEq (jGet parsed "action") "final"
            && isStr (jGet parsed "content") then
          some (.final (jGet parsed "content"))
        else if jsTruthy parsed && jIsStrEq (jGet parsed "action") "tool_call"
            && isArr (jGet parsed "tool_calls") then
          some (.toolCall
            (((jArrElems (jGet parsed "tool_calls")).filter
                (fun t => jsTruthy t && isStr (jGet t "name"))).map
              (fun t => ⟨jGet t "name", normalizeToolArguments po (jGet t "arguments")⟩)))
        else none
    | none =>
        let ms := tagMatches output
        if ms.isEmpty then none
        else
          let tcs := ms.filterMap (fun m =>
            match po.parse m.2 with
            | some args => some (⟨Json.str m.1, normalizeToolArguments po args⟩ : PlannedToolCall)
            | none => none)
          if tcs.isEmpty then none else some (.toolCall tcs)

/-- Well-formedness of a returned plan: a final plan carries a string
content, and every planned tool call carries a string name. -/
def planWellFormed : ToolCallPlan → Prop
  | .final c => isStr c = true
  | .toolCall tcs => ∀ t ∈ tcs, isStr t.name = true

/-! Credential resolver (plugin/auth.ts, shipped as the unnamed source
part_002). The process table, socket tables and files are environment
records; the regular expressions of the source are implemented
concretely over character lists. -/

/-- The tagged error codes of the WindsurfError class. -/
inductive WindsurfErrorCode where
  | NOT_RUNNING
  | CSRF_MISSING
  | API_KEY_MISSING
  | CONNECTION_FAILED
  | AUTH_FAILED
  | STREAM_ERROR
  deriving DecidableEq

/-- The supported process.platform values (the keys of
LANGUAGE_SERVER_PATTERNS and VSCODE_STATE_PATHS). -/
inductive Platform where
  | darwin
  | linux
  | win32
  deriving DecidableEq

/-- LANGUAGE_SERVER_PATTERNS: the platform-specific process-name
substring. -/
def patternFor : Platform → String
  | .darwin => "language_server_macos"
  | .linux => "language_server_linux_x64"
  | .win32 => "language_server_windows"

/-- Substring containment over character lists (JS String.includes). -/
def containsSub (hay needle : List Char) : Bool :=
  match hay with
  | [] => needle.isEmpty
  | _ :: t => needle.isPrefixOf hay || containsSub t needle

/-- JS String.includes. -/
def strContains (s sub : String) : Bool :=
  containsSub s.data sub.data

/-- Match of the anchored pattern: optional whitespace, one or more
non-whitespace characters, one or more whitespace characters, then the
captured digit run — the PID capture of the ps-line regular expression.
Because whitespace and non-whitespace are complementary, the greedy scan
is exact. -/
def matchPid (l : List Char) : Option String :=
  let l1 := l.dropWhile isJsWhitespace
  let tok := l1.takeWhile (fun c => !isJsWhitespace c)
  let l2 := l1.dropWhile (fun c => !isJsWhitespace c)
  if tok.isEmpty then none
  else
    let ws := l2.takeWhile isJsWhitespace
    let l3 := l2.dropWhile isJsWhitespace
    if ws.isEmpty then none
    else
      let ds := l3.takeWhile Char.isDigit
      if ds.isEmpty then none else some ⟨ds⟩

/-- One step of the unanchored scan for: the literal lit, one or more
whitespace characters, then a captured non-empty run of characters
satisfying cls. -/
def matchArgTokenHere (lit : List Char) (cls : Char → Bool) (l : List Char) : Option String :=
  if lit.isPrefixOf l then
    let rest := l.drop lit.length
    let ws := rest.takeWhile isJsWhitespace
    let rest2 := rest.dropWhile isJsWhitespace
    if ws.isEmpty then none
    else
      let tok := rest2.takeWhile cls
      if tok.isEmpty then none else some ⟨tok⟩
  else none

/-- Unanchored match (JS String.match): the first position at which the
literal, whitespace, capture pattern succeeds. -/
def matchArgToken (lit : List Char) (cls : Char → Bool) : List Char → Option String
  | [] => none
  | a :: t =>
      match matchArgTokenHere lit cls (a :: t) with
      | some s => some s
      | none => matchArgToken lit cls t

/-- The character class of the csrf-token capture: lowercase hex digits
and dashes. -/
def isCsrfChar (c : Char) : Bool :=
  c.isDigit || ('a' ≤ c && c ≤ 'f') || c = '-'

/-- JavaScript parseInt on a digits-only capture. -/
def jsParseIntDigits (s : String) : Nat :=
  s.data.foldl (fun n c => 10 * n + (c.toNat - 48)) 0

/-- Split a character list on a separator character (JS String.split
semantics: n separators produce n plus one pieces, empty pieces kept). -/
def splitOnChar (c : Char) : List Char → List (List Char)
  | [] => [[]]
  | a :: t =>
      let r := splitOnChar c t
      if a = c then [] :: r
      else
        match r with
        | h :: t2 => (a :: h) :: t2
        | [] => [[a]]

/-- JS String.split with a newline separator. -/
def splitLines (s : String) : List String :=
  (splitOnChar '\n' s.data).map (fun l => ⟨l⟩)

/-- One parsed language-server process entry. -/
structure LSProcess where
  pid : String
  csrfToken : String
  extensionServerPort : Option Nat
  line : String

/-- Embedding of getLanguageServerProcesses (auth, lines 97 to 136)
applied to the raw ps or wmic output. None as output models a thrown
child-process error, swallowed into the empty list. A line is kept only
when it contains the platform pattern, does not contain the word grep,
and yields both a PID capture and a csrf-token capture; the extension
server port is optional. -/
def getLanguageServerProcesses (pattern : String) (output : Option String) : List LSProcess :=
  match output with
  | none => []
  | some out =>
      (splitLines out).filterMap (fun line =>
        if !(strContains line pattern) || strContains line "grep" then none
        else
          match matchPid line.data,
                matchArgToken "--csrf_token".data isCsrfChar line.data with
          | some pid, some csrf =>
              some ⟨pid, csrf,
                (matchArgToken "--extension_server_port".data Char.isDigit line.data).map
                  jsParseIntDigits,
                line⟩
          | _, _ => none)

/-- Embedding of getCSRFToken (auth, lines 239 to 250): the token of the
first parsed process, or the NOT_RUNNING error when the parsed list is
empty. -/
def getCSRFToken (pattern : String) (output : Option String) :
    Except WindsurfErrorCode String :=
  match getLanguageServerProcesses pattern output with
  | [] => .error .NOT_RUNNING
  | p :: _ => .ok p.csrfToken

/-! Port discovery (getPortForPid, auth lines 141 to 234). -/

/-- Insertion of a value into an ascending list. -/
def insertAsc (x : Nat) : List Nat → List Nat
  | [] => [x]
  | y :: ys => if x ≤ y then x :: y :: ys else y :: insertAsc x ys

/-- Ascending insertion sort, the model of the JavaScript numeric
sort((a, b) => a - b). -/
def sortAsc : List Nat → List Nat
  | [] => []
  | x :: xs => insertAsc x (sortAsc xs)

/-- JavaScript truthiness of the nullable extension-server port. -/
def extPortTruthy : Option Nat → Bool
  | none => false
  | some e => e != 0

/-- The port-selection snippet shared by the two Linux discovery paths:
if the extension port is truthy and some discovered port exceeds it,
the smallest such port (sorted, then first); otherwise the discovered
ports sorted ascending, first element. -/
def pickPortLinux (ports : List Nat) (extPort : Option Nat) : Nat :=
  let after :=
    match extPort with
    | some e => if e != 0 then sortAsc (ports.filter (fun p => decide (e < p))) else []
    | none => []
  match after with
  | a :: _ => a
  | [] => (sortAsc ports).headD 0

/-- The port-selection snippet of the macOS path: like the Linux one for
the strictly-greater case, but the fallback returns the first discovered
port in lsof output order, without sorting. -/
def pickPortDarwin (ports : List Nat) (extPort : Option Nat) : Nat :=
  let after :=
    match extPort with
    | some e => if e != 0 then sortAsc (ports.filter (fun p => decide (e < p))) else []
    | none => []
  match after with
  | a :: _ => a
  | [] => ports.headD 0

/-- The discovered-port environment of getPortForPid: whether the proc
fd scan found socket inodes, the listening ports decoded from
/proc/net/tcp and tcp6, the ports of the ss fallback, and the LISTEN
ports of the macOS lsof query. -/
structure PortEnv where
  inodesNonempty : Bool
  procPorts : List Nat
  ssPorts : List Nat
  lsofPorts : List Nat

/-- The last-resort offset fallback of getPortForPid: extension port
plus three when the extension port is truthy, else null. -/
def portLastResort (extPort : Option Nat) : Option Nat :=
  match extPort with
  | some e => if e != 0 then some (e + 3) else none
  | none => none

/-- Embedding of getPortForPid (auth, lines 141 to 234). On Linux the
proc-fd path applies when socket inodes were found and decoded listening
ports exist; otherwise the ss fallback applies when it yielded ports;
on macOS the lsof path applies when it yielded ports; all remaining
cases fall to the offset fallback (the only case on win32, which has no
branch in the source). -/
def getPortForPid (pf : Platform) (env : PortEnv) (extPort : Option Nat) : Option Nat :=
  match pf with
  | .linux =>
      if env.inodesNonempty && !env.procPorts.isEmpty then
        some (pickPortLinux env.procPorts extPort)
      else if !env.ssPorts.isEmpty then
        some (pickPortLinux env.ssPorts extPort)
      else portLastResort extPort
  | .darwin =>
      if !env.lsofPorts.isEmpty then some (pickPortDarwin env.lsofPorts extPort)
      else portLastResort extPort
  | .win32 => portLastResort extPort

/-- Embedding of getPort (auth, lines 256 to 275): the port resolved for
the first parsed process, NOT_RUNNING when no process parsed or when
port resolution returned null. -/
def getPort (pf : Platform) (output : Option String) (penv : PortEnv) :
    Except WindsurfErrorCode Nat :=
  match getLanguageServerProcesses (patternFor pf) output with
  | [] => .error .NOT_RUNNING
  | p :: _ =>
      match getPortForPid pf penv p.extensionServerPort with
      | some n => .ok n
      | none => .error .NOT_RUNNING

/-! API key lookup (getApiKey, auth lines 285 to 332). -/

/-- The file-system and SQLite environment of getApiKey: whether the
state database file exists, the trimmed stdout of the sqlite3 query
(None models a thrown child-process or sqlite error), whether the legacy
config file exists, and its content (None models a read error). -/
structure KeyEnv where
  stateDbExists : Bool
  sqliteValue : Option String
  legacyExists : Bool
  legacyContent : Option String

/-- The state-database half of getApiKey: the apiKey property of the
JSON-parsed query result, provided the file exists, the query succeeded
with a non-empty result, the result parses, and the property is truthy. -/
def dbApiKey (po : ParseOracle) (env : KeyEnv) : Option Json :=
  if env.stateDbExists then
    match env.sqliteValue with
    | none => none
    | some result =>
        if result != "" then
          match po.parse result with
          | some parsed =>
              if jsTruthy (jGet parsed "apiKey") then some (jGet parsed "apiKey") else none
          | none => none
        else none
  else none

/-- The legacy-config half of getApiKey: the truthy apiKey property of
the parsed legacy config file. -/
def legacyApiKey (po : ParseOracle) (env : KeyEnv) : Option Json :=
  if env.legacyExists then
    match env.legacyContent with
    | none => none
    | some config =>
        match po.parse config with
        | some parsed =>
            if jsTruthy (jGet parsed "apiKey") then some (jGet parsed "apiKey") else none
        | none => none
  else none

/-- Embedding of getApiKey (auth, lines 285 to 332) on the supported
platforms: try the state database, then the legacy config, else the
API_KEY_MISSING error. The returned value is the raw apiKey property. -/
def getApiKey (po : ParseOracle) (env : KeyEnv) : Except WindsurfErrorCode Json :=
  match dbApiKey po env with
  | some k => .ok k
  | none =>
      match legacyApiKey po env with
      | some k => .ok k
      | none => .error .API_KEY_MISSING

/-- Embedding of getWindsurfVersion (auth, lines 337 to 348): the
captured windsurf_version token of the first process line with any build
suffix after a plus sign stripped, defaulting to the hard-coded baseline. -/
def getWindsurfVersion (procs : List LSProcess) : String :=
  match procs with
  | [] => "1.13.104"
  | p :: _ =>
      match matchArgToken "--windsurf_version".data (fun c => !isJsWhitespace c) p.line.data with
      | some tok => ⟨tok.data.takeWhile (fun c => c != '+')⟩
      | none => "1.13.104"

/-- The full environment consulted by one credential resolution. -/
structure ResolverEnv where
  platform : Platform
  psOutput : Option String
  portEnv : PortEnv
  keyEnv : KeyEnv

/-- The resolved credentials record (the apiKey kept as the raw JSON
value the source returns). -/
structure CredentialsV where
  csrfToken : String
  port : Nat
  apiKey : Json
  version : String

/-- Embedding of getCredentials (auth, lines 357 to 364): the four
resolvers run in order, the first thrown tagged error propagating. -/
def getCredentials (po : ParseOracle) (env : ResolverEnv) :
    Except WindsurfErrorCode CredentialsV := do
  let csrf ← getCSRFToken (patternFor env.platform) env.psOutput
  let port ← getPort env.platform env.psOutput env.portEnv
  let key ← getApiKey po env.keyEnv
  return ⟨csrf, port, key,
    getWindsurfVersion (getLanguageServerProcesses (patternFor env.platform) env.psOutput)⟩

/-- Embedding of isWindsurfRunning (auth, lines 369 to 377): true when
both the csrf token and the port resolve without throwing. The API key
is not consulted. -/
def isWindsurfRunning (env : ResolverEnv) : Bool :=
  match getCSRFToken (patternFor env.platform) env.psOutput with
  | .error _ => false
  | .ok _ =>
      match getPort env.platform env.psOutput env.portEnv with
      | .error _ => false
      | .ok _ => true

/-- Embedding of the status logic of the chat-completions handler
(server.ts, lines 65 to 111): 503 when isWindsurfRunning is false;
otherwise the try block runs getCredentials and then the rest of the
handler (abstracted as the outcome rest), and any exception — the tagged
resolver errors included — is caught and answered with 500; 200 stands
for the successful responses. -/
def chatCompletionsStatus (po : ParseOracle) (env : ResolverEnv)
    (rest : Except String Unit) : Nat :=
  if !isWindsurfRunning env then 503
  else
    match getCredentials po env with
    | .error _ => 500
    | .ok _ =>
        match rest with
        | .error _ => 500
        | .ok _ => 200

/-! Server-sent-event emission (plugin.ts: createStreamingResponse lines
472 to 543, handleToolPlanningStream lines 159 to 230). The enqueued
byte strings are modeled structurally as items. -/

/-- The delta object of one chat.completion.chunk: optional role,
optional content, and the names of any tool calls carried. -/
structure Delta where
  role : Option String
  content : Option String
  toolCallNames : List String

/-- One emitted SSE item: a data chunk with its delta and finish_reason,
an error object, or the DONE terminator. -/
inductive SSEItem where
  | chunk (delta : Delta) (finishReason : Option String)
  | errorItem (message : String)
  | done

/-- A delta is empty when it carries no role, no text (absent or the
empty string) and no tool calls. -/
def deltaIsEmpty (d : Delta) : Bool :=
  (match d.role with | none => true | some _ => false)
    && (match d.content with | none => true | some c => c == "")
    && d.toolCallNames.isEmpty

/-- The string value of a JSON value known to be a string. -/
def jStrVal : Json → String
  | .str s => s
  | _ => ""

/-- Embedding of the emission order of createStreamingResponse (plugin.ts
lines 485 to 541): the generator chunks each as a content chunk with
null finish_reason; then, if the generator finished cleanly, an
empty-content chunk with finish_reason stop followed by DONE; if it
threw (err carries the message), an error object and no DONE. -/
def createStreamingResponseItems (chunks : List String) (err : Option String) : List SSEItem :=
  (chunks.map (fun c => SSEItem.chunk ⟨none, some c, []⟩ none)) ++
    (match err with
     | some msg => [SSEItem.errorItem msg]
     | none => [SSEItem.chunk ⟨none, some "", []⟩ (some "stop"), SSEItem.done])

/-- Embedding of the emission order of handleToolPlanningStream
(plugin.ts lines 164 to 228), given the outcome of planToolCall: a
thrown error yields an error object then DONE; a tool_call plan yields
one chunk whose delta carries the assistant role and the tool calls with
finish_reason tool_calls, then DONE; a final plan (or no plan, in which
case the raw model text is used) yields one chunk whose delta carries
the content with finish_reason stop, then DONE. -/
def handleToolPlanningStreamItems
    (outcome : Except String (Option ToolCallPlan × String)) : List SSEItem :=
  match outcome with
  | .error msg => [SSEItem.errorItem msg, SSEItem.done]
  | .ok (plan, content) =>
      match plan with
      | some (.toolCall tcs) =>
          [SSEItem.chunk ⟨some "assistant", none, tcs.map (fun t => jStrVal t.name)⟩
            (some "tool_calls"),
           SSEItem.done]
      | some (.final c) =>
          [SSEItem.chunk ⟨none, some (jStrVal c), []⟩ (some "stop"), SSEItem.done]
      | none =>
          [SSEItem.chunk ⟨none, some content, []⟩ (some "stop"), SSEItem.done]

/-! Outbound message conversion (plugin.ts lines 488 to 497 and 562 to
570) and the Cascade-side joining of the retained messages. -/

/-- The content of an inbound OpenAI message: a plain string or a list
of typed parts with optional text. -/
inductive MsgContent where
  | text (s : String)
  | parts (ps : List (String × Option String))
  deriving DecidableEq

/-- One inbound chat message. -/
structure ReqMessage where
  role : String
  content : MsgContent
  deriving DecidableEq

/-- The content conversion of the outbound mapping: a string content is
kept, a part list is joined from the text of each part (empty when
absent), with no separator. -/
def flattenContent : MsgContent → String
  | .text s => s
  | .parts ps => String.join (ps.map (fun p => p.2.getD ""))

/-- One message as forwarded to the Cascade client. -/
structure OutMessage where
  role : String
  content : String
  deriving DecidableEq

/-- Embedding of the message filter and conversion shared by
createStreamingResponse and createNonStreamingResponse: drop assistant
and tool messages, flatten each remaining content to a string. -/
def outboundMessages (msgs : List ReqMessage) : List OutMessage :=
  (msgs.filter (fun m => m.role != "assistant" && m.role != "tool")).map
    (fun m => ⟨m.role, flattenContent m.content⟩)

/-- Embedding of the system-and-user joining of
buildSendUserCascadeMessageRequest (plugin/grpc-client.ts, staged as the
third document of docs/REVERSE_ENGINEERING.md, lines 795 to 815): one
pass over the messages collects system contents then user contents into
separate lists (an if, else-if chain, so the two are disjoint and each
preserves message order, equivalent to two role filters); the collected
contents are joined systems first, then users, with blank-line
separators; and the falsy-string test of the source (join or-else the
literal Hello) replaces an empty join by the literal Hello. -/
def cascadeOutboundText (msgs : List OutMessage) : String :=
  let text := String.intercalate "\n\n"
    (((msgs.filter (fun m => m.role == "system")).map (fun m => m.content)) ++
     ((msgs.filter (fun m => m.role == "user")).map (fun m => m.content)))
  if text == "" then "Hello" else text

/-! Model registry (plugin/models.ts, not shipped under src; modelled
from the specification, section 4.4, constrained by the unit tests in
tests/unit/variant.test.ts). -/

/-- Modelled from the spec: a VariantSpec of the variant catalog — an
optional enum value and an optional model UID; a present model UID takes
precedence (string-UID routing). -/
structure VariantSpec where
  enumValue : Option Nat
  modelUid : Option String

/-- Modelled from the spec: one variant-catalog entry — the default
variant name and the variant table of a canonical model. -/
structure CatalogEntry where
  defaultVariant : Option String
  variants : List (String × VariantSpec)

/-- Modelled from the spec: the three registry maps (alias to canonical,
variant catalog, legacy flat name-to-enum map) and the known variant
names used by suffix detection. -/
structure Registry where
  aliasToCanonical : List (String × String)
  variantCatalog : List (String × CatalogEntry)
  nameToEnum : List (String × Nat)
  knownVariants : List String

/-- Association lookup by string key (first match). -/
def alookup {α : Type} (l : List (String × α)) (k : String) : Option α :=
  match l.find? (fun kv => kv.1 == k) with
  | some kv => some kv.2
  | none => none

/-- Modelled from the spec: the resolved model of one request. -/
structure ResolvedModel where
  modelId : String
  variant : Option String
  enumValue : Nat
  modelUid : Option String

/-- Split on the first colon (resolver step 1, colon form). -/
def splitFirstColon (s : String) : Option (String × String) :=
  match s.data.findIdx? (fun c => c == ':') with
  | some i => some (⟨s.data.take i⟩, ⟨s.data.drop (i + 1)⟩)
  | none => none

/-- Is the string a canonical ID or alias known to the registry. -/
def isCanonicalOrAlias (reg : Registry) (s : String) : Bool :=
  (alookup reg.aliasToCanonical s).isSome || (alookup reg.variantCatalog s).isSome
    || (alookup reg.nameToEnum s).isSome

/-- Modelled from the spec: resolver step 1, suffix form — when the
input has no colon but ends in a dash followed by a known variant name
and the stripped prefix is a canonical ID or alias, treat the tail as
the variant. -/
def suffixSplit (reg : Registry) (input : String) : Option (String × String) :=
  match reg.knownVariants.find? (fun v =>
      ("-" ++ v).data.isSuffixOf input.data &&
      isCanonicalOrAlias reg ⟨input.data.take (input.data.length - (v.data.length + 1))⟩) with
  | some v => some (⟨input.data.take (input.data.length - (v.data.length + 1))⟩, v)
  | none => none

/-- Modelled from the spec: resolver step 5, the legacy flat map with
the default fallback (canonical claude-3.5-sonnet, enum 166). -/
def fallbackEnum (reg : Registry) (input canonical : String) (effVariant : Option String) :
    ResolvedModel :=
  match alookup reg.nameToEnum input with
  | some e => ⟨canonical, effVariant, e, none⟩
  | none => ⟨"claude-3.5-sonnet", effVariant, 166, none⟩

/-- Modelled from the spec: the resolver algorithm of section 4.4 —
split the input (colon first, else suffix detection); an explicit
override variant wins over any parsed variant; map the id part through
the alias map, else take it as canonical; a catalog entry routes by the
effective variant (falling back to the catalog default), a variant spec
with a model UID giving string-UID routing (enum 0) and one without
giving enum routing; with no catalog entry (or no matching variant
spec) fall back to the legacy flat map. -/
def resolveModel (reg : Registry) (input : String) (overrideVariant : Option String) :
    ResolvedModel :=
  let idAndVariant :=
    match splitFirstColon input with
    | some (idp, vp) => (idp, some vp)
    | none =>
        match suffixSplit reg input with
        | some (idp, vp) => (idp, some vp)
        | none => (input, none)
  let effVariant := overrideVariant.orElse (fun _ => idAndVariant.2)
  let canonical := (alookup reg.aliasToCanonical idAndVariant.1).getD idAndVariant.1
  match alookup reg.variantCatalog canonical with
  | some entry =>
      let v := effVariant.orElse (fun _ => entry.defaultVariant)
      match v.bind (fun vn => alookup entry.variants vn) with
      | some vs =>
          match vs.modelUid with
          | some uid => ⟨canonical, v, 0, some uid⟩
          | none => ⟨canonical, v, vs.enumValue.getD 0, none⟩
      | none => fallbackEnum reg input canonical effVariant
  | none => fallbackEnum reg input canonical effVariant

/-- Does the input carry an inline variant, in colon or suffix form. -/
def hasInlineVariant (reg : Registry) (input : String) : Prop :=
  (splitFirstColon input).isSome = true ∨ (suffixSplit reg input).isSome = true

/-- Well-formedness of a variant spec: a present model UID is non-empty;
an absent one requires a positive enum value. -/
def variantSpecOk (vs : VariantSpec) : Bool :=
  match vs.modelUid with
  | some uid => uid != ""
  | none =>
      match vs.enumValue with
      | some n => decide (0 < n)
      | none => false

/-- Well-formedness of a registry: every catalog variant spec is
well-formed and every legacy enum value is positive. -/
def registryOk (reg : Registry) : Bool :=
  (reg.variantCatalog.all (fun ce => ce.2.variants.all (fun v => variantSpecOk v.2)))
    && (reg.nameToEnum.all (fun kn => decide (0 < kn.2)))

/-! Specification-side predicates and concrete instances used by the
claim theorems, their witnesses and counterexamples. -/

/-- r is the smallest member of the list. -/
def isLeastOf (r : Nat) (l : List Nat) : Prop :=
  r ∈ l ∧ ∀ p ∈ l, r ≤ p

/-- r is the smallest member of the list strictly greater than e. -/
def isLeastAbove (r e : Nat) (l : List Nat) : Prop :=
  r ∈ l ∧ e < r ∧ ∀ p ∈ l, e < p → r ≤ p

/-- The selection behavior of the Linux port-discovery paths: with a
truthy extension port, the smallest discovered port strictly above it
when one exists and the smallest discovered port otherwise; with a null
or zero extension port, the smallest discovered port. -/
def portSelSpecLinux (r : Nat) (ports : List Nat) (extPort : Option Nat) : Prop :=
  match extPort with
  | some e =>
      if e ≠ 0 then
        ((∃ p ∈ ports, e < p) → isLeastAbove r e ports)
          ∧ ((¬ ∃ p ∈ ports, e < p) → isLeastOf r ports)
      else isLeastOf r ports
  | none => isLeastOf r ports

/-- The selection behavior of the macOS port-discovery path: like the
Linux one in the strictly-above case, but in every other case the first
discovered port in lsof output order. -/
def portSelSpecDarwin (r : Nat) (ports : List Nat) (extPort : Option Nat) : Prop :=
  match extPort with
  | some e =>
      if e ≠ 0 then
        ((∃ p ∈ ports, e < p) → isLeastAbove r e ports)
          ∧ ((¬ ∃ p ∈ ports, e < p) → r = ports.headD 0)
      else r = ports.headD 0
  | none => r = ports.headD 0

/-- The parse oracle that rejects every string (a JSON.parse that always
throws). -/
def noneOracle : ParseOracle :=
  ⟨fun _ => none, fun _ _ h => Option.noConfusion h⟩

/-- A concrete planner reply: one JSON object with a final action. -/
def demoPlanText : String := "\x7b\"action\":\"final\",\"content\":\"hi\"\x7d"

/-- The parse of demoPlanText. -/
def demoPlanJson : Json := .obj [("action", .str "final"), ("content", .str "hi")]

/-- A parse oracle recognizing exactly demoPlanText. -/
def demoOracle : ParseOracle where
  parse := fun s => if s = demoPlanText then some demoPlanJson else none
  parse_mu_lt := by
    intro s v h
    by_cases hc : s = demoPlanText
    · subst hc
      simp at h
      subst h
      decide
    · simp [hc] at h

/-- A concrete auth-status value as stored in the state database. -/
def dbValueText : String := "\x7b\"apiKey\":\"k\"\x7d"

/-- The parse of dbValueText. -/
def dbValueJson : Json := .obj [("apiKey", .str "k")]

/-- A parse oracle recognizing exactly dbValueText. -/
def dbOracle : ParseOracle where
  parse := fun s => if s = dbValueText then some dbValueJson else none
  parse_mu_lt := by
    intro s v h
    by_cases hc : s = dbValueText
    · subst hc
      simp at h
      subst h
      decide
    · simp [hc] at h

/-- A key environment whose state database holds dbValueText and whose
legacy config is absent. -/
def exKeyEnv : KeyEnv := ⟨true, some dbValueText, false, none⟩

/-- A ps line for a language server with a csrf token and an extension
server port. -/
def exPsLine : String :=
  "user 42 1.0 /opt/windsurf/language_server_linux_x64 --csrf_token abc123 --extension_server_port 4000"

/-- A resolver environment in which the language server is running (csrf
token and port resolve) but no API key source exists. -/
def exEnvC1 : ResolverEnv :=
  ⟨.linux, some exPsLine, ⟨true, [4100], [], []⟩, ⟨false, none, false, none⟩⟩

/-- A ps line that contains the platform pattern but no csrf token. -/
def exNoCsrfLine : String :=
  "user 123 2.5 /opt/windsurf/language_server_linux_x64 --extension_server_port 4000"

/-- A small registry exercising aliasing, an enum-variant catalog entry,
a string-UID catalog entry, and the legacy flat map, shaped after the
unit-test expectations. -/
def demoRegistry : Registry :=
  ⟨[("gemini-3-0-pro", "gemini-3.0-pro")],
   [("gemini-3.0-pro",
      ⟨some "medium",
       [("low", ⟨some 301, none⟩), ("medium", ⟨some 302, none⟩), ("high", ⟨some 303, none⟩)]⟩),
    ("claude-4.6-opus",
      ⟨some "base",
       [("base", ⟨none, some "claude-opus-4-6"⟩),
        ("thinking", ⟨none, some "claude-opus-4-6-thinking"⟩)]⟩)],
   [("gpt-4o", 261)],
   ["low", "medium", "high", "xhigh", "thinking", "fast", "slow", "1m", "minimal"]⟩

/-- A concrete inbound message list with one message of every role. -/
def demoMsgs : List ReqMessage :=
  [⟨"system", .text "sys"⟩,
   ⟨"assistant", .text "thought"⟩,
   ⟨"user", .parts [("text", some "use"), ("image", none)]⟩,
   ⟨"tool", .text "result"⟩]

/-- The forwarded form of the user message of demoMsgs. -/
def demoOut : OutMessage := ⟨"user", "use"⟩

/-- A request whose only message is an assistant message, leaving no
system or user content to join. -/
def exAsstMsgs : List ReqMessage := [⟨"assistant", .text "thought"⟩]

/-! Shared helper lemmas. -/

theorem attach_map_pair {α β γ : Type} (l : List (α × β)) (f : β → γ) :
    l.attach.map (fun kv => (kv.1.1, f kv.1.2)) = l.map (fun kv => (kv.1, f kv.2)) := by
  simp [List.attach, List.attachWith, List.map_pmap, List.pmap_eq_map]

theorem attach_map_fn {α β : Type} (l : List α) (f : α → β) :
    l.attach.map (fun x => f x.1) = l.map f := by
  simp [List.attach, List.attachWith, List.map_pmap, List.pmap_eq_map]

theorem mu_pos (x : Json) : 1 ≤ mu x := by
  cases x <;> simp [mu]

/-! The idempotence development for normalizeToolArguments. -/

theorem normalize_fix_aux (po : ParseOracle) :
    ∀ n, ∀ x, mu x ≤ n →
      normalizeToolArguments po (normalizeToolArguments po x) = normalizeToolArguments po x := by
  intro n
  induction n with
  | zero => intro x hx; exact absurd (le_trans (mu_pos x) hx) (by omega)
  | succ n ih =>
    intro x hx
    cases x with
    | null => simp [normalizeToolArguments]
    | undefined => simp [normalizeToolArguments]
    | bool b => simp [normalizeToolArguments]
    | num m => simp [normalizeToolArguments]
    | str s =>
      cases hl : looksLikeJson (jsTrim s) with
      | false =>
        have e1 : normalizeToolArguments po (.str s) = .str s := by
          simp [normalizeToolArguments, hl]
        rw [e1, e1]
      | true =>
        cases hp : po.parse (jsTrim s) with
        | none =>
          have e1 : normalizeToolArguments po (.str s) = .str s := by
            simp only [normalizeToolArguments, hl, if_true]
            split
            · rename_i v heq
              rw [hp] at heq
              exact Option.noConfusion heq
            · rfl
          rw [e1, e1]
        | some v =>
          have e1 : normalizeToolArguments po (.str s) = normalizeToolArguments po v := by
            simp only [normalizeToolArguments, hl, if_true]
            split
            · rename_i w heq
              rw [hp] at heq
              cases heq
              rfl
            · rename_i heq
              rw [hp] at heq
              exact Option.noConfusion heq
          rw [e1]
          apply ih
          have h1 := po.parse_mu_lt _ _ hp
          have h2 := jsTrim_length_le s
          simp only [mu] at hx
          omega
    | arr xs =>
      have e1 : ∀ L : List Json,
          normalizeToolArguments po (.arr L) = .arr (L.map (normalizeToolArguments po)) := by
        intro L
        simp only [normalizeToolArguments]
        rw [attach_map_fn]
      rw [e1, e1, List.map_map]
      congr 1
      apply List.map_congr_left
      intro a ha
      apply ih
      have h1 := mu_le_muList ha
      simp only [mu] at hx
      omega
    | obj kvs =>
      have e1 : ∀ L : List (String × Json),
          normalizeToolArguments po (.obj L)
            = .obj (L.map (fun kv => (kv.1, normalizeToolArguments po kv.2))) := by
        intro L
        simp only [normalizeToolArguments]
        rw [attach_map_pair]
      rw [e1, e1, List.map_map]
      congr 1
      apply List.map_congr_left
      intro a ha
      simp only [Function.comp]
      congr 1
      apply ih
      have h1 := mu_le_muObj ha
      simp only [mu] at hx
      omega

/-- C10. normalizeToolArguments is idempotent: a second application is
the identity on every result of a first application, whatever the input
value and whatever deterministic JSON.parse behavior is in effect; and
in particular null and undefined map to the empty object, and a string
whose trimmed form does not both start and end with matching braces or
brackets is returned unchanged. -/
theorem normalizeToolArguments_idem (po : ParseOracle) (x : Json) (s : String)
    (hs : looksLikeJson (jsTrim s) = false) :
    normalizeToolArguments po (normalizeToolArguments po x) = normalizeToolArguments po x
    ∧ normalizeToolArguments po .null = .obj []
    ∧ normalizeToolArguments po .undefined = .obj []
    ∧ normalizeToolArguments po (.str s) = .str s := by
  refine ⟨normalize_fix_aux po (mu x) x le_rfl, by simp [normalizeToolArguments],
    by simp [normalizeToolArguments], ?_⟩
  simp [normalizeToolArguments, hs]

/-- Witness for C10 at a concrete oracle, value and string. -/
theorem normalizeToolArguments_idem_witness :
    looksLikeJson (jsTrim "abc") = false
    ∧ (normalizeToolArguments noneOracle (normalizeToolArguments noneOracle (.str "x"))
          = normalizeToolArguments noneOracle (.str "x")
        ∧ normalizeToolArguments noneOracle .null = .obj []
        ∧ normalizeToolArguments noneOracle .undefined = .obj []
        ∧ normalizeToolArguments noneOracle (.str "abc") = .str "abc") :=
  ⟨by decide, normalizeToolArguments_idem noneOracle (.str "x") "abc" (by decide)⟩

/-- C9. parseToolCallPlan is total by construction and returns only
well-formed plans: whatever the JSON.parse behavior, the tag-scan
behavior and the input string, a returned final plan carries a string
content, and every tool call of a returned tool-call plan carries a
string name (the JSON branch filters on typeof name, the tag branch
captures names from the regular expression). -/
theorem parseToolCallPlan_wellFormed (po : ParseOracle)
    (tagMatches : String → List (String × String)) (output : String)
    (plan : ToolCallPlan)
    (h : parseToolCallPlan po tagMatches output = some plan) :
    planWellFormed plan := by
  simp only [parseToolCallPlan] at h
  split at h
  · exact Option.noConfusion h
  · split at h
    · rename_i parsed hp
      split at h
      · rename_i hcond
        cases h
        simp only [planWellFormed]
        simp only [Bool.and_eq_true] at hcond
        exact hcond.2
      · split at h
        · rename_i hcond2
          cases h
          simp only [planWellFormed]
          intro t ht
          rcases List.mem_map.mp ht with ⟨t0, ht0, rfl⟩
          have := (List.mem_filter.mp ht0).2
          simp only [Bool.and_eq_true] at this
          exact this.2
        · exact Option.noConfusion h
    · split at h
      · exact Option.noConfusion h
      · split at h
        · exact Option.noConfusion h
        · cases h
          simp only [planWellFormed]
          intro t ht
          rcases List.mem_filterMap.mp ht with ⟨m, _, hm⟩
          revert hm
          split
          · intro hm
            cases hm
            rfl
          · intro hm
            exact Option.noConfusion hm

/-- Witness for C9 at a concrete oracle and planner reply. -/
theorem parseToolCallPlan_wellFormed_witness :
    parseToolCallPlan demoOracle (fun _ => []) demoPlanText = some (.final (.str "hi"))
    ∧ planWellFormed (.final (.str "hi")) :=
  ⟨rfl, parseToolCallPlan_wellFormed demoOracle (fun _ => []) demoPlanText
    (.final (.str "hi")) rfl⟩

/-- C2 counterexample. A system state in which a language-server process
line matching the platform pattern exists but lacks the csrf_token
argument: the line is dropped during parsing, the parsed process list is
empty, and getCSRFToken raises NOT_RUNNING — not CSRF_MISSING as the
claim states. -/
theorem csrf_less_process_not_running_counterexample :
    strContains exNoCsrfLine (patternFor .linux) = true
    ∧ matchArgToken "--csrf_token".data isCsrfChar exNoCsrfLine.data = none
    ∧ getCSRFToken (patternFor .linux) (some exNoCsrfLine)
        = .error .NOT_RUNNING :=
  ⟨rfl, rfl, rfl⟩

/-- C2 as amended. getCSRFToken fails exactly when the parsed process
list is empty — which includes every state whose matching process lines
lack the csrf_token argument, since such lines are dropped by the parser
— and the error is always NOT_RUNNING; CSRF_MISSING is never raised. -/
theorem getCSRFToken_error_iff (pattern : String) (output : Option String)
    (c : WindsurfErrorCode) :
    getCSRFToken pattern output = .error c ↔
      (getLanguageServerProcesses pattern output = [] ∧ c = .NOT_RUNNING) := by
  unfold getCSRFToken
  cases h : getLanguageServerProcesses pattern output with
  | nil => simp [eq_comm]
  | cons p t => simp

/-- C1 counterexample. A state in which the language server is running
(csrf token and port both resolve, so the 503 gate passes) but the API
key is missing: getCredentials raises the tagged API_KEY_MISSING error,
which the handler's catch-all converts to status 500 — not 503 as the
claim states. -/
theorem api_key_missing_status_counterexample :
    isWindsurfRunning exEnvC1 = true
    ∧ getCredentials noneOracle exEnvC1 = .error .API_KEY_MISSING
    ∧ chatCompletionsStatus noneOracle exEnvC1 (.ok ()) = 500 :=
  ⟨rfl, rfl, rfl⟩

/-- C1 as amended. The chat-completions handler returns 503 exactly when
isWindsurfRunning is false (csrf-token or port resolution fails); every
error raised inside the handler — the tagged credential-resolver errors
of getCredentials, such as API_KEY_MISSING, included — is caught by the
catch-all and answered with status 500. -/
theorem chatCompletionsStatus_gate (po : ParseOracle) (env : ResolverEnv)
    (rest : Except String Unit) :
    (chatCompletionsStatus po env rest = 503 ↔ isWindsurfRunning env = false)
    ∧ (∀ e, isWindsurfRunning env = true → getCredentials po env = .error e →
        chatCompletionsStatus po env rest = 500) := by
  unfold chatCompletionsStatus
  cases hr : isWindsurfRunning env with
  | false => simp
  | true =>
    simp only [Bool.not_true, Bool.false_eq_true, if_false]
    cases hc : getCredentials po env with
    | error e => simp
    | ok c => cases rest <;> simp

/-- Witness for C1 as amended, at the concrete no-api-key environment. -/
theorem chatCompletionsStatus_gate_witness :
    isWindsurfRunning exEnvC1 = true
    ∧ chatCompletionsStatus noneOracle exEnvC1 (.ok ()) = 500 :=
  ⟨rfl, (chatCompletionsStatus_gate noneOracle exEnvC1 (.ok ())).2
    .API_KEY_MISSING rfl rfl⟩

/-- C5. getApiKey returns the apiKey of the state-database value when
that value is present (non-empty query result), parses, and carries a
truthy apiKey; otherwise it returns the apiKey of the legacy config when
that yields one; and it raises the tagged API_KEY_MISSING error exactly
when neither source yields an apiKey — and no other error. -/
theorem getApiKey_sources (po : ParseOracle) (env : KeyEnv) :
    (∀ r parsed, env.stateDbExists = true → env.sqliteValue = some r → r ≠ "" →
      po.parse r = some parsed → jsTruthy (jGet parsed "apiKey") = true →
      getApiKey po env = .ok (jGet parsed "apiKey"))
    ∧ (∀ config parsed, dbApiKey po env = none → env.legacyExists = true →
        env.legacyContent = some config → po.parse config = some parsed →
        jsTruthy (jGet parsed "apiKey") = true →
        getApiKey po env = .ok (jGet parsed "apiKey"))
    ∧ (getApiKey po env = .error .API_KEY_MISSING ↔
        dbApiKey po env = none ∧ legacyApiKey po env = none)
    ∧ (∀ e, getApiKey po env = .error e → e = .API_KEY_MISSING) := by
  refine ⟨?_, ?_, ?_, ?_⟩
  · intro r parsed h1 h2 h3 h4 h5
    have h3b : (r != "") = true := bne_iff_ne.mpr h3
    have hdb : dbApiKey po env = some (jGet parsed "apiKey") := by
      simp [dbApiKey, h1, h2, h3b, h4, h5]
    simp [getApiKey, hdb]
  · intro config parsed hdb h1 h2 h3 h4
    have hlg : legacyApiKey po env = some (jGet parsed "apiKey") := by
      simp [legacyApiKey, h1, h2, h3, h4]
    simp [getApiKey, hdb, hlg]
  · unfold getApiKey
    cases hdb : dbApiKey po env with
    | some k => simp
    | none =>
      cases hlg : legacyApiKey po env with
      | some k => simp
      | none => simp
  · intro e
    unfold getApiKey
    cases hdb : dbApiKey po env with
    | some k => simp
    | none =>
      cases hlg : legacyApiKey po env with
      | some k => simp
      | none => simp [eq_comm]

/-- Witness for C5 at a concrete oracle and key environment. -/
theorem getApiKey_sources_witness :
    exKeyEnv.stateDbExists = true
    ∧ exKeyEnv.sqliteValue = some dbValueText
    ∧ dbValueText ≠ ""
    ∧ dbOracle.parse dbValueText = some dbValueJson
    ∧ jsTruthy (jGet dbValueJson "apiKey") = true
    ∧ getApiKey dbOracle exKeyEnv = .ok (jGet dbValueJson "apiKey") :=
  ⟨rfl, rfl, by decide, by simp [dbOracle], by decide,
    (getApiKey_sources dbOracle exKeyEnv).1 dbValueText dbValueJson rfl rfl
      (by decide) (by simp [dbOracle]) (by decide)⟩

/-! Ordering facts about the insertion-sort model of the JavaScript
numeric sort. -/

theorem insertAsc_ne_nil (x : Nat) (l : List Nat) : insertAsc x l ≠ [] := by
  cases l with
  | nil => simp [insertAsc]
  | cons y ys =>
    simp only [insertAsc]
    split <;> simp

theorem sortAsc_eq_nil_iff (l : List Nat) : sortAsc l = [] ↔ l = [] := by
  cases l with
  | nil => simp [sortAsc]
  | cons x xs => simp [sortAsc, insertAsc_ne_nil]

theorem mem_insertAsc (y x : Nat) (l : List Nat) :
    y ∈ insertAsc x l ↔ y = x ∨ y ∈ l := by
  induction l with
  | nil => simp [insertAsc]
  | cons a t ih =>
    simp only [insertAsc]
    split
    · simp [List.mem_cons]
    · simp only [List.mem_cons, ih]
      tauto

theorem mem_sortAsc (y : Nat) (l : List Nat) : y ∈ sortAsc l ↔ y ∈ l := by
  induction l with
  | nil => simp [sortAsc]
  | cons x xs ih => simp [sortAsc, mem_insertAsc, ih]

theorem insertAsc_headD (x : Nat) (l : List Nat) (h : l ≠ []) :
    (insertAsc x l).headD 0 = min x (l.headD 0) := by
  cases l with
  | nil => exact absurd rfl h
  | cons a t =>
    simp only [insertAsc]
    split
    · rename_i hxa
      simp [Nat.min_eq_left hxa]
    · rename_i hxa
      have : a ≤ x := Nat.le_of_lt (Nat.lt_of_not_le hxa)
      simp [Nat.min_eq_right this]

theorem sortAsc_headD_least (l : List Nat) (h : l ≠ []) :
    isLeastOf ((sortAsc l).headD 0) l := by
  induction l with
  | nil => exact absurd rfl h
  | cons x xs ih =>
    by_cases hxs : xs = []
    · subst hxs
      simp [sortAsc, insertAsc, isLeastOf]
    · have hs_ne : sortAsc xs ≠ [] := by
        intro hnil
        exact hxs ((sortAsc_eq_nil_iff xs).mp hnil)
      obtain ⟨hmem, hle⟩ := ih hxs
      have hins := insertAsc_headD x (sortAsc xs) hs_ne
      have hshow : sortAsc (x :: xs) = insertAsc x (sortAsc xs) := rfl
      constructor
      · rw [hshow, hins]
        rcases Nat.le_total x ((sortAsc xs).headD 0) with hxm | hmx
        · rw [Nat.min_eq_left hxm]
          exact List.mem_cons_self x xs
        · rw [Nat.min_eq_right hmx]
          exact List.mem_cons_of_mem x hmem
      · intro p hp
        rw [hshow, hins]
        rcases List.mem_cons.mp hp with hpx | hpxs
        · subst hpx
          exact Nat.min_le_left _ _
        · calc min x ((sortAsc xs).headD 0) ≤ (sortAsc xs).headD 0 := Nat.min_le_right _ _
            _ ≤ p := hle p hpxs

theorem sortAsc_mem_of_headD (l : List Nat) (h : l ≠ []) :
    ((sortAsc l).headD 0) ∈ l :=
  (sortAsc_headD_least l h).1

/-! The selection specifications of the two port-picking snippets. -/

theorem pickPortLinux_spec (ports : List Nat) (extPort : Option Nat) (h : ports ≠ []) :
    portSelSpecLinux (pickPortLinux ports extPort) ports extPort := by
  cases extPort with
  | none =>
    simp only [pickPortLinux, portSelSpecLinux]
    exact sortAsc_headD_least ports h
  | some e =>
    by_cases he : e = 0
    · subst he
      simpa [pickPortLinux, portSelSpecLinux] using sortAsc_headD_least ports h
    · have heb : (e != 0) = true := bne_iff_ne.mpr he
      simp only [pickPortLinux, portSelSpecLinux, heb, if_true, if_pos he]
      cases hft : sortAsc (ports.filter (fun p => decide (e < p))) with
      | nil =>
        have hfe : ports.filter (fun p => decide (e < p)) = [] :=
          (sortAsc_eq_nil_iff _).mp hft
        have hnone : ∀ p ∈ ports, ¬ e < p := by
          intro p hp hlt
          have : p ∈ ports.filter (fun p => decide (e < p)) :=
            List.mem_filter.mpr ⟨hp, by simpa using hlt⟩
          rw [hfe] at this
          exact absurd this (List.not_mem_nil p)
        constructor
        · intro hex
          rcases hex with ⟨p, hp, hlt⟩
          exact absurd hlt (hnone p hp)
        · intro _
          exact sortAsc_headD_least ports h
      | cons a rest =>
        have hfa : ports.filter (fun p => decide (e < p)) ≠ [] := by
          intro hnil
          rw [hnil] at hft
          exact List.noConfusion hft
        have hleast := sortAsc_headD_least _ hfa
        rw [hft] at hleast
        simp only [List.headD_cons] at hleast
        obtain ⟨hamem, hale⟩ := hleast
        have hamem2 := List.mem_filter.mp hamem
        constructor
        · intro _
          refine ⟨hamem2.1, by simpa using hamem2.2, ?_⟩
          intro p hp hlt
          exact hale p (List.mem_filter.mpr ⟨hp, by simpa using hlt⟩)
        · intro hnex
          exact absurd ⟨a, hamem2.1, by simpa using hamem2.2⟩ hnex

theorem pickPortDarwin_spec (ports : List Nat) (extPort : Option Nat) :
    portSelSpecDarwin (pickPortDarwin ports extPort) ports extPort := by
  cases extPort with
  | none => simp [pickPortDarwin, portSelSpecDarwin]
  | some e =>
    by_cases he : e = 0
    · subst he
      simp [pickPortDarwin, portSelSpecDarwin]
    · have heb : (e != 0) = true := bne_iff_ne.mpr he
      simp only [pickPortDarwin, portSelSpecDarwin, heb, if_true, if_pos he]
      cases hft : sortAsc (ports.filter (fun p => decide (e < p))) with
      | nil =>
        have hfe : ports.filter (fun p => decide (e < p)) = [] :=
          (sortAsc_eq_nil_iff _).mp hft
        constructor
        · intro hex
          rcases hex with ⟨p, hp, hlt⟩
          have : p ∈ ports.filter (fun p => decide (e < p)) :=
            List.mem_filter.mpr ⟨hp, by simpa using hlt⟩
          rw [hfe] at this
          exact absurd this (List.not_mem_nil p)
        · intro _
          rfl
      | cons a rest =>
        have hfa : ports.filter (fun p => decide (e < p)) ≠ [] := by
          intro hnil
          rw [hnil] at hft
          exact List.noConfusion hft
        have hleast := sortAsc_headD_least _ hfa
        rw [hft] at hleast
        simp only [List.headD_cons] at hleast
        obtain ⟨hamem, hale⟩ := hleast
        have hamem2 := List.mem_filter.mp hamem
        constructor
        · intro _
          refine ⟨hamem2.1, by simpa using hamem2.2, ?_⟩
          intro p hp hlt
          exact hale p (List.mem_filter.mpr ⟨hp, by simpa using hlt⟩)
        · intro hnex
          exact absurd ⟨a, hamem2.1, by simpa using hamem2.2⟩ hnex

/-- C3 counterexample. On the macOS path with discovered listening
ports 5 then 3 and no extension port, getPortForPid returns 5 — the
first port in lsof output order — although the smallest listening port
is 3, contradicting the claim that the otherwise-case returns the
smallest listening port. -/
theorem darwin_port_order_counterexample :
    getPortForPid .darwin ⟨false, [], [], [5, 3]⟩ none = some 5
    ∧ isLeastOf 3 [5, 3]
    ∧ (5 : Nat) ≠ 3 := by
  refine ⟨by decide, ?_, by decide⟩
  constructor
  · decide
  · decide

/-- C3 as amended. On the two Linux discovery paths the resolver returns
the smallest listening port strictly greater than a truthy ext_port when
one exists and otherwise the smallest listening port; on the macOS path
the strictly-greater case is the same but the otherwise-case returns the
first discovered port in lsof output order; when no listening port is
discovered the resolver returns ext_port plus three if ext_port is known
and non-zero, and null otherwise. -/
theorem getPortForPid_selection (env : PortEnv) (extPort : Option Nat) :
    (env.inodesNonempty = true → env.procPorts ≠ [] →
      ∃ r, getPortForPid .linux env extPort = some r
        ∧ portSelSpecLinux r env.procPorts extPort)
    ∧ ((env.inodesNonempty = false ∨ env.procPorts = []) → env.ssPorts ≠ [] →
        ∃ r, getPortForPid .linux env extPort = some r
          ∧ portSelSpecLinux r env.ssPorts extPort)
    ∧ (env.lsofPorts ≠ [] →
        ∃ r, getPortForPid .darwin env extPort = some r
          ∧ portSelSpecDarwin r env.lsofPorts extPort)
    ∧ ((env.inodesNonempty = false ∨ env.procPorts = []) → env.ssPorts = [] →
        getPortForPid .linux env extPort = portLastResort extPort)
    ∧ (env.lsofPorts = [] → getPortForPid .darwin env extPort = portLastResort extPort)
    ∧ (∀ e, extPort = some e → e ≠ 0 → portLastResort extPort = some (e + 3)) := by
  refine ⟨?_, ?_, ?_, ?_, ?_, ?_⟩
  · intro h1 h2
    have h2b : env.procPorts.isEmpty = false := by
      cases hp : env.procPorts with
      | nil => exact absurd hp h2
      | cons a t => rfl
    refine ⟨pickPortLinux env.procPorts extPort, ?_, pickPortLinux_spec _ _ h2⟩
    simp [getPortForPid, h1, h2b]
  · intro h1 h2
    have h1b : (env.inodesNonempty && !env.procPorts.isEmpty) = false := by
      rcases h1 with h | h
      · simp [h]
      · simp [h]
    have h2b : env.ssPorts.isEmpty = false := by
      cases hp : env.ssPorts with
      | nil => exact absurd hp h2
      | cons a t => rfl
    refine ⟨pickPortLinux env.ssPorts extPort, ?_, pickPortLinux_spec _ _ h2⟩
    simp [getPortForPid, h1b, h2b]
  · intro h1
    have h1b : env.lsofPorts.isEmpty = false := by
      cases hp : env.lsofPorts with
      | nil => exact absurd hp h1
      | cons a t => rfl
    refine ⟨pickPortDarwin env.lsofPorts extPort, ?_, pickPortDarwin_spec _ _⟩
    simp [getPortForPid, h1b]
  · intro h1 h2
    have h1b : (env.inodesNonempty && !env.procPorts.isEmpty) = false := by
      rcases h1 with h | h
      · simp [h]
      · simp [h]
    simp [getPortForPid, h1b, h2]
  · intro h1
    simp [getPortForPid, h1]
  · intro e he hne
    subst he
    simp [portLastResort, bne_iff_ne.mpr hne]

/-- Witness for C3 as amended, on the Linux path with a concrete port
set. -/
theorem getPortForPid_selection_witness :
    ∃ r, getPortForPid .linux ⟨true, [4100, 4200], [], []⟩ (some 4000) = some r
      ∧ portSelSpecLinux r [4100, 4200] (some 4000) :=
  (getPortForPid_selection ⟨true, [4100, 4200], [], []⟩ (some 4000)).1 rfl (by decide)

/-- C4 counterexample. On the tool-planning streaming path with a final
plan carrying the text hi, the emitted sequence is a single chunk whose
delta carries that text together with the terminal finish_reason,
immediately followed by DONE: the last data chunk before DONE does not
have an empty delta, contradicting the claim for the tool-planning
path. -/
theorem toolPlanning_final_chunk_counterexample :
    handleToolPlanningStreamItems (.ok (some (.final (.str "hi")), "raw"))
      = [SSEItem.chunk ⟨none, some "hi", []⟩ (some "stop"), SSEItem.done]
    ∧ deltaIsEmpty ⟨none, some "hi", []⟩ = false :=
  ⟨rfl, rfl⟩

/-- C4 as amended. On the plain streaming path a cleanly finishing
generator yields the content chunks (each with null finish_reason), then
one empty-delta chunk with finish_reason stop, then DONE. On the
tool-planning streaming path a successful plan yields exactly one data
chunk immediately followed by DONE; that single chunk carries the
payload in its delta together with a terminal finish_reason (stop or
tool_calls) — no separate empty-delta chunk is emitted there. -/
theorem streaming_terminal_chunks (chunks : List String)
    (outcome : Except String (Option ToolCallPlan × String)) :
    (createStreamingResponseItems chunks none
        = (chunks.map (fun c => SSEItem.chunk ⟨none, some c, []⟩ none))
          ++ [SSEItem.chunk ⟨none, some "", []⟩ (some "stop"), SSEItem.done]
      ∧ deltaIsEmpty ⟨none, some "", []⟩ = true)
    ∧ (∀ plan content, outcome = .ok (plan, content) →
        ∃ d fr, handleToolPlanningStreamItems outcome
            = [SSEItem.chunk d (some fr), SSEItem.done]
          ∧ (fr = "stop" ∨ fr = "tool_calls")) := by
  refine ⟨⟨rfl, rfl⟩, ?_⟩
  rintro plan content rfl
  cases plan with
  | none => exact ⟨_, "stop", rfl, Or.inl rfl⟩
  | some p =>
    cases p with
    | final c => exact ⟨_, "stop", rfl, Or.inl rfl⟩
    | toolCall tcs => exact ⟨_, "tool_calls", rfl, Or.inr rfl⟩

/-- Witness for C4 as amended, at a concrete tool-planning outcome. -/
theorem streaming_terminal_chunks_witness :
    ∃ d fr, handleToolPlanningStreamItems (.ok (none, "x"))
        = [SSEItem.chunk d (some fr), SSEItem.done]
      ∧ (fr = "stop" ∨ fr = "tool_calls") :=
  (streaming_terminal_chunks ["hello"] (.ok (none, "x"))).2 none "x" rfl

/-! Helpers for the registry and message claims. -/

theorem alookup_mem_val {α : Type} {l : List (String × α)} {k : String} {v : α}
    (h : alookup l k = some v) : ∃ key, (key, v) ∈ l := by
  unfold alookup at h
  cases hf : l.find? (fun kv => kv.1 == k) with
  | none => rw [hf] at h; exact Option.noConfusion h
  | some kv =>
    rw [hf] at h
    cases h
    have hm := List.mem_of_find?_eq_some hf
    exact ⟨kv.1, by rwa [Prod.mk.eta]⟩

theorem fallbackEnum_variant (reg : Registry) (input canonical : String)
    (ef : Option String) : (fallbackEnum reg input canonical ef).variant = ef := by
  unfold fallbackEnum
  split <;> rfl

/-- C6. For every registry, input string and explicit override variant,
the resolver records the override as the resolved variant — it beats any
inline (colon or suffix) variant carried by the input. -/
theorem resolveModel_override_wins (reg : Registry) (input ov : String)
    (hinline : hasInlineVariant reg input) :
    (resolveModel reg input (some ov)).variant = some ov := by
  have _ := hinline
  simp only [resolveModel, Option.orElse]
  split
  · split
    · split <;> rfl
    · rw [fallbackEnum_variant]
  · rw [fallbackEnum_variant]

/-- Witness for C6 at the specification's own example, resolve of
m colon high with override low. -/
theorem resolveModel_override_wins_witness :
    hasInlineVariant demoRegistry "m:high"
    ∧ (resolveModel demoRegistry "m:high" (some "low")).variant = some "low" :=
  ⟨by exact Or.inl (by decide),
   resolveModel_override_wins demoRegistry "m:high" "low" (Or.inl (by decide))⟩

/-- C8. For every well-formed registry and every resolution, exactly one
routing mode is active: either string-UID routing (enum value zero and a
non-empty model UID) or enum routing (positive enum value and no model
UID) — the two cases being mutually exclusive since the enum value
cannot be both zero and positive. -/
theorem resolveModel_routing_modes (reg : Registry) (input : String)
    (ov : Option String) (r : ResolvedModel)
    (hwf : registryOk reg = true)
    (hr : resolveModel reg input ov = r) :
    (r.enumValue = 0 ∧ ∃ uid, r.modelUid = some uid ∧ uid ≠ "")
    ∨ (0 < r.enumValue ∧ r.modelUid = none) := by
  rw [registryOk, Bool.and_eq_true] at hwf
  have hcat : ∀ c e, (c, e) ∈ reg.variantCatalog →
      ∀ vn vs, (vn, vs) ∈ e.variants → variantSpecOk vs = true := by
    intro c e hce vn vs hvs
    have h1 := List.all_eq_true.mp hwf.1 (c, e) hce
    exact List.all_eq_true.mp h1 (vn, vs) hvs
  have henum : ∀ k n, (k, n) ∈ reg.nameToEnum → 0 < n := by
    intro k n hkn
    have h1 := List.all_eq_true.mp hwf.2 (k, n) hkn
    exact of_decide_eq_true h1
  simp only [resolveModel] at hr
  split at hr
  · rename_i entry heq
    split at hr
    · rename_i vs heq2
      obtain ⟨vn, hvn, hlook⟩ := Option.bind_eq_some.mp heq2
      obtain ⟨key, hkeymem⟩ := alookup_mem_val hlook
      obtain ⟨ckey, hcmem⟩ := alookup_mem_val heq
      have hok := hcat ckey entry hcmem key vs hkeymem
      cases hvu : vs.modelUid with
      | some uid =>
        rw [hvu] at hr
        cases hr
        left
        refine ⟨rfl, uid, rfl, ?_⟩
        rw [variantSpecOk, hvu] at hok
        exact bne_iff_ne.mp hok
      | none =>
        rw [hvu] at hr
        cases hr
        rw [variantSpecOk, hvu] at hok
        cases hve : vs.enumValue with
        | none => rw [hve] at hok; exact Bool.noConfusion hok
        | some n =>
          rw [hve] at hok
          right
          refine ⟨?_, rfl⟩
          simp only [hve, Option.getD_some]
          exact of_decide_eq_true hok
    · rw [fallbackEnum] at hr
      split at hr
      · rename_i e3 heq3
        cases hr
        obtain ⟨key, hkeymem⟩ := alookup_mem_val heq3
        exact Or.inr ⟨henum key e3 hkeymem, rfl⟩
      · cases hr
        exact Or.inr ⟨Nat.succ_pos 165, rfl⟩
  · rw [fallbackEnum] at hr
    split at hr
    · rename_i e3 heq3
      cases hr
      obtain ⟨key, hkeymem⟩ := alookup_mem_val heq3
      exact Or.inr ⟨henum key e3 hkeymem, rfl⟩
    · cases hr
      exact Or.inr ⟨Nat.succ_pos 165, rfl⟩

/-- Witness for C8 at a concrete registry and a string-UID resolution. -/
theorem resolveModel_routing_modes_witness :
    registryOk demoRegistry = true
    ∧ (((⟨"claude-4.6-opus", some "base", 0, some "claude-opus-4-6"⟩ : ResolvedModel).enumValue = 0
          ∧ ∃ uid, (⟨"claude-4.6-opus", some "base", 0, some "claude-opus-4-6"⟩ : ResolvedModel).modelUid
                = some uid ∧ uid ≠ "")
        ∨ (0 < (⟨"claude-4.6-opus", some "base", 0, some "claude-opus-4-6"⟩ : ResolvedModel).enumValue
          ∧ (⟨"claude-4.6-opus", some "base", 0, some "claude-opus-4-6"⟩ : ResolvedModel).modelUid = none)) :=
  ⟨by decide,
   resolveModel_routing_modes demoRegistry "claude-4.6-opus" none
     ⟨"claude-4.6-opus", some "base", 0, some "claude-opus-4-6"⟩ (by decide) rfl⟩

/-! Helpers for the outbound-message claim. -/

theorem filter_of_map {α β : Type} (f : α → β) (p : β → Bool) (l : List α) :
    (l.map f).filter p = (l.filter (fun a => p (f a))).map f := by
  induction l with
  | nil => rfl
  | cons a t ih =>
    simp only [List.map_cons, List.filter_cons]
    cases hp : p (f a) <;> simp [hp, ih]

theorem role_filter_collapse (s : String) (h1 : (s == "assistant") = false)
    (h2 : (s == "tool") = false) (r : String) :
    ((r == s) && (r != "assistant" && r != "tool")) = (r == s) := by
  cases hr : r == s with
  | false => simp
  | true =>
    have : r = s := eq_of_beq hr
    subst this
    simp [bne, h1, h2]

/-- C7 counterexample. A request whose only message is an assistant
message: the forwarded list is empty, the system-and-user join is the
empty string, yet the outbound text item is the literal Hello — not the
(empty) join of retained system and user content the claim describes. -/
theorem hello_fallback_counterexample :
    outboundMessages exAsstMsgs = []
    ∧ String.intercalate "\n\n"
        (((exAsstMsgs.filter (fun m => m.role == "system")).map
            (fun m => flattenContent m.content))
          ++ ((exAsstMsgs.filter (fun m => m.role == "user")).map
            (fun m => flattenContent m.content))) = ""
    ∧ cascadeOutboundText (outboundMessages exAsstMsgs) = "Hello"
    ∧ ("Hello" : String) ≠ "" :=
  ⟨rfl, rfl, rfl, by decide⟩

/-- C7 as amended. The message list forwarded to the Cascade client
contains no assistant and no tool messages; whenever the blank-line join
of the system contents (first) and user contents (second) of the
original request is non-empty, that join is the single outbound text
item; and when that join is empty the literal Hello is sent instead. -/
theorem outbound_messages_spec (msgs : List ReqMessage) :
    (∀ m ∈ outboundMessages msgs, m.role ≠ "assistant" ∧ m.role ≠ "tool")
    ∧ (String.intercalate "\n\n"
          (((msgs.filter (fun m => m.role == "system")).map
              (fun m => flattenContent m.content))
            ++ ((msgs.filter (fun m => m.role == "user")).map
              (fun m => flattenContent m.content))) ≠ "" →
        cascadeOutboundText (outboundMessages msgs)
          = String.intercalate "\n\n"
              (((msgs.filter (fun m => m.role == "system")).map
                  (fun m => flattenContent m.content))
                ++ ((msgs.filter (fun m => m.role == "user")).map
                  (fun m => flattenContent m.content))))
    ∧ (String.intercalate "\n\n"
          (((msgs.filter (fun m => m.role == "system")).map
              (fun m => flattenContent m.content))
            ++ ((msgs.filter (fun m => m.role == "user")).map
              (fun m => flattenContent m.content))) = "" →
        cascadeOutboundText (outboundMessages msgs) = "Hello") := by
  have erole : ∀ (s : String), (s == "assistant") = false → (s == "tool") = false →
      (outboundMessages msgs).filter (fun m => m.role == s)
        = (msgs.filter (fun m => m.role == s)).map
            (fun m => (⟨m.role, flattenContent m.content⟩ : OutMessage)) := by
    intro s h1 h2
    show ((msgs.filter (fun m => m.role != "assistant" && m.role != "tool")).map
        (fun m => (⟨m.role, flattenContent m.content⟩ : OutMessage))).filter
          (fun m => m.role == s) = _
    rw [filter_of_map, List.filter_filter]
    congr 1
    apply List.filter_congr
    intro m _
    exact role_filter_collapse s h1 h2 m.role
  have hkey : String.intercalate "\n\n"
      ((((outboundMessages msgs).filter (fun m => m.role == "system")).map
          (fun m => m.content))
        ++ (((outboundMessages msgs).filter (fun m => m.role == "user")).map
          (fun m => m.content)))
      = String.intercalate "\n\n"
          (((msgs.filter (fun m => m.role == "system")).map
              (fun m => flattenContent m.content))
            ++ ((msgs.filter (fun m => m.role == "user")).map
              (fun m => flattenContent m.content))) := by
    rw [erole "system" rfl rfl, erole "user" rfl rfl, List.map_map, List.map_map]
    rfl
  refine ⟨?_, ?_, ?_⟩
  · intro m hm
    simp only [outboundMessages] at hm
    rcases List.mem_map.mp hm with ⟨m0, hm0, rfl⟩
    have hq := (List.mem_filter.mp hm0).2
    rw [Bool.and_eq_true] at hq
    exact ⟨bne_iff_ne.mp hq.1, bne_iff_ne.mp hq.2⟩
  · intro hne
    have hbeq := beq_eq_false_iff_ne.mpr hne
    simp only [cascadeOutboundText, hkey, hbeq, Bool.false_eq_true, if_false]
  · intro heq
    have hbeq : (String.intercalate "\n\n"
        (((msgs.filter (fun m => m.role == "system")).map
            (fun m => flattenContent m.content))
          ++ ((msgs.filter (fun m => m.role == "user")).map
            (fun m => flattenContent m.content))) == "") = true := beq_iff_eq.mpr heq
    simp only [cascadeOutboundText, hkey, hbeq, if_true]

/-- Witness for C7 as amended, at a concrete message list containing all
four roles and a non-empty join. -/
theorem outbound_messages_spec_witness :
    demoOut ∈ outboundMessages demoMsgs
    ∧ (demoOut.role ≠ "assistant" ∧ demoOut.role ≠ "tool")
    ∧ String.intercalate "\n\n"
        (((demoMsgs.filter (fun m => m.role == "system")).map
            (fun m => flattenContent m.content))
          ++ ((demoMsgs.filter (fun m => m.role == "user")).map
            (fun m => flattenContent m.content))) ≠ ""
    ∧ cascadeOutboundText (outboundMessages demoMsgs)
        = String.intercalate "\n\n"
            (((demoMsgs.filter (fun m => m.role == "system")).map
                (fun m => flattenContent m.content))
              ++ ((demoMsgs.filter (fun m => m.role == "user")).map
                (fun m => flattenContent m.content))) :=
  ⟨by decide, (outbound_messages_spec demoMsgs).1 demoOut (by decide), by decide,
   (outbound_messages_spec demoMsgs).2.1 (by decide)⟩

end WindsurfAuth
